import Mathlib

/-!
Verification of the PaceLearning / DocLearn frontend orchestration layer.

The development shallow-embeds the streaming chat client
(`frontend/src/services/chat.ts`), the chat page handlers
(`frontend/src/pages/DashboardPage.tsx`), the `useChat` hook, the session
service client (`frontend/src/services/auth.ts`, `api.ts`), the progress
computations (`SessionsPage.tsx`, `DashboardPage.tsx`) and the
`ProgressBar` component.  The backend progression endpoints and the Memory
Buffer Manager are not part of the repository sources; where a claim needs
them they are modelled from the specification, and marked as such.

Strings from the JavaScript side are embedded as `List Char` so that the
chunk-splitting loop of the SSE client can be reasoned about by list
induction.
-/

/-- JavaScript strings, embedded as lists of characters. -/
abbrev Str := List Char

/-- Character list of a Lean string literal. -/
def chars (s : String) : Str := s.data

/-- Whitespace recognised by `String.prototype.trim` (the characters that
actually occur in the SSE line protocol). -/
def isWs (c : Char) : Bool := c = ' ' || c = '\t' || c = '\n' || c = '\r'

/-- JavaScript `s.trimStart()`. -/
def trimLeft (s : Str) : Str := s.dropWhile isWs

/-- JavaScript `s.trimEnd()`. -/
def trimRight (s : Str) : Str := (s.reverse.dropWhile isWs).reverse

/-- JavaScript `s.trim()`. -/
def trim (s : Str) : Str := trimLeft (trimRight s)

/-- JavaScript `s.startsWith(p)`. -/
def startsWith (p s : Str) : Bool := p.isPrefixOf s

/-- JavaScript `s.split('\n')`, presented as the list of complete (newline-terminated)
lines paired with the trailing remnant after the last newline.  The
JavaScript call returns the concatenation `ls ++ [r]`; the client then pops
the remnant `r` back into its buffer, so this presentation matches how the
result is consumed. -/
def splitLines : Str → List Str × Str
  | [] => ([], [])
  | c :: rest =>
    let p := splitLines rest
    if c = '\n' then ([] :: p.1, p.2)
    else
      match p with
      | ([], r) => ([], c :: r)
      | (l :: ls, r) => ((c :: l) :: ls, r)

/-- The decoded lines of a text, in the usual sense (the text after the
final newline, when nonempty, is the last line). -/
def decodedLines (s : Str) : List Str :=
  if (splitLines s).2 = [] then (splitLines s).1
  else (splitLines s).1 ++ [(splitLines s).2]

/-- A parsed JSON object, restricted to the fields the SSE client ever
inspects (`'content' in eventData`, etc.).  `none` means the key is
absent. -/
structure JsonObj where
  content : Option Str
  error : Option Str
  current_day : Option Int
  current_topic_index : Option Int
  is_day_complete : Option Bool
  is_course_complete : Option Bool
  full_response : Option Str
deriving DecidableEq, Inhabited

/-- A recorded callback invocation of `sendMessageStream`:
`onToken`, `onDone`, or `onError`. -/
inductive CB
  | tok (content : Str)
  | doneEv (data : JsonObj)
  | err (msg : Str)
deriving DecidableEq

/-- The dispatch chain of `chat.ts:78-91`, run on a successfully parsed
data payload: the callbacks invoked for this data line. -/
def dispatch (currentEvent : Str) (eventData : JsonObj) : List CB :=
  if currentEvent == chars "token" && eventData.content.isSome then
    [CB.tok (eventData.content.getD [])]
  else if currentEvent == chars "error" && eventData.error.isSome then
    [CB.err (eventData.error.getD [])]
  else if currentEvent == chars "done" then
    [CB.doneEv eventData]
  else if eventData.content.isSome then
    [CB.tok (eventData.content.getD [])]
  else if eventData.error.isSome then
    [CB.err (eventData.error.getD [])]
  else if eventData.current_day.isSome then
    [CB.doneEv eventData]
  else []

/-- The body of the `for (const line of lines)` loop of `chat.ts:61-100`.
State is the current `currentEvent` string together with the callbacks
invoked so far.  `parse` stands for `JSON.parse` restricted to the
inspected fields; `none` models a parse exception, which the source
catches and skips (without resetting `currentEvent`). -/
def handleLine (parse : Str → Option JsonObj) (st : Str × List CB)
    (line : Str) : Str × List CB :=
  if startsWith (chars "event:") (trim line) then
    (trim ((trim line).drop 6), st.2)
  else if startsWith (chars "data:") (trim line) then
    if trim ((trim line).drop 5) = [] then st
    else
      match parse (trim ((trim line).drop 5)) with
      | none => st
      | some eventData => ([], st.2 ++ dispatch st.1 eventData)
  else st

/-- The loop state of `sendMessageStream`: the partial-line buffer, the
current event tag, and the callbacks invoked so far. -/
structure StreamState where
  buffer : Str
  currentEvent : Str
  cbs : List CB
deriving DecidableEq

/-- One iteration of the reader loop of `chat.ts:53-101`: append the chunk
to the buffer, split on newlines, pop the remnant back into the buffer and
process every complete line. -/
def processChunk (parse : Str → Option JsonObj) (st : StreamState)
    (chunk : Str) : StreamState :=
  let p := splitLines (st.buffer ++ chunk)
  let r := p.1.foldl (handleLine parse) (st.currentEvent, st.cbs)
  ⟨p.2, r.1, r.2⟩

/-- The function `chatService.sendMessageStream` (`chat.ts:23-105`), from the point the
reader starts delivering chunks: the list of callback invocations, in
order.  Note that when the reader reports `done` the loop exits without
processing the text still sitting in `buffer`. -/
def sendMessageStream (parse : Str → Option JsonObj)
    (chunks : List Str) : List CB :=
  (chunks.foldl (processChunk parse) ⟨[], [], []⟩).cbs

/-! Section: Structure of the chunk loop -/

theorem splitLines_no_nl (s : Str) (h : '\n' ∉ s) : splitLines s = ([], s) := by
  induction s with
  | nil => rfl
  | cons c rest ih =>
    have hc : ¬ c = '\n' := fun hc => h (hc ▸ List.mem_cons_self c rest)
    have hr : '\n' ∉ rest := fun hm => h (List.mem_cons_of_mem c hm)
    simp only [splitLines, ih hr, if_neg hc]

theorem splitLines_remnant_no_nl (s : Str) : '\n' ∉ (splitLines s).2 := by
  induction s with
  | nil => simp [splitLines]
  | cons c rest ih =>
    simp only [splitLines]
    by_cases hc : c = '\n'
    · simpa [hc] using ih
    · rcases hp : splitLines rest with ⟨ls, r⟩
      cases ls with
      | nil =>
        simp only [hp, if_neg hc]
        intro hm
        rcases List.mem_cons.1 hm with h | h
        · exact hc h.symm
        · exact ih (by rw [hp]; exact h)
      | cons l ls' =>
        simp only [hp, if_neg hc]
        intro hm
        exact ih (by rw [hp]; exact hm)

theorem splitLines_cons (c : Char) (rest : Str) :
    splitLines (c :: rest) =
      if c = '\n' then ([] :: (splitLines rest).1, (splitLines rest).2)
      else
        match splitLines rest with
        | ([], r) => ([], c :: r)
        | (l :: ls, r) => ((c :: l) :: ls, r) := rfl

theorem splitLines_append (a b : Str) :
    splitLines (a ++ b) =
      ((splitLines a).1 ++ (splitLines ((splitLines a).2 ++ b)).1,
       (splitLines ((splitLines a).2 ++ b)).2) := by
  induction a with
  | nil => simp [splitLines]
  | cons c a ih =>
    by_cases hc : c = '\n'
    · subst hc
      simp [List.cons_append, splitLines_cons, ih]
    · rcases hp : splitLines a with ⟨la, ra⟩
      cases la with
      | cons l ls =>
        simp [List.cons_append, splitLines_cons, ih, hp, if_neg hc]
      | nil =>
        rcases hq : splitLines (ra ++ b) with ⟨lb, rb⟩
        cases lb with
        | nil =>
          simp [List.cons_append, splitLines_cons, ih, hp, hq, if_neg hc]
        | cons l ls =>
          simp [List.cons_append, splitLines_cons, ih, hp, hq, if_neg hc]

/-- Processing the chunks one by one is the same as processing all complete
lines of the concatenated text: the reader loop is insensitive to how the
byte stream is split into chunks. -/
theorem foldl_processChunk (parse : Str → Option JsonObj) (chunks : List Str)
    (st : StreamState) (h : '\n' ∉ st.buffer) :
    chunks.foldl (processChunk parse) st =
      ⟨(splitLines (st.buffer ++ chunks.flatten)).2,
       ((splitLines (st.buffer ++ chunks.flatten)).1.foldl (handleLine parse)
         (st.currentEvent, st.cbs)).1,
       ((splitLines (st.buffer ++ chunks.flatten)).1.foldl (handleLine parse)
         (st.currentEvent, st.cbs)).2⟩ := by
  induction chunks generalizing st with
  | nil =>
    obtain ⟨buf, ev, cbs⟩ := st
    simp [splitLines_no_nl buf h]
  | cons c cs ih =>
    obtain ⟨buf, ev, cbs⟩ := st
    simp only [List.foldl_cons, List.flatten_cons]
    rw [ih _ (splitLines_remnant_no_nl _)]
    simp only [processChunk]
    rw [show buf ++ (c ++ cs.flatten) = (buf ++ c) ++ cs.flatten from
      (List.append_assoc _ _ _).symm]
    rw [splitLines_append (buf ++ c) cs.flatten]
    simp [List.foldl_append]

/-- Running `sendMessageStream` on any chunking of a text invokes exactly the
callbacks produced by the complete lines of that text; the remnant after
the last newline is never processed. -/
theorem sendMessageStream_join (parse : Str → Option JsonObj)
    (chunks : List Str) :
    sendMessageStream parse chunks =
      ((splitLines chunks.flatten).1.foldl (handleLine parse) ([], [])).2 := by
  unfold sendMessageStream
  rw [foldl_processChunk parse chunks ⟨[], [], []⟩ (by simp)]
  simp

/-! Section: Well-formed SSE streams (the §6 wire format) -/

/-- A payload string fit to sit on a single `data:` line: nonempty,
newline-free and already trimmed. -/
def goodPayload (p : Str) : Prop :=
  p ≠ [] ∧ '\n' ∉ p ∧ trimLeft p = p ∧ trimRight p = p

instance (p : Str) : Decidable (goodPayload p) := by
  unfold goodPayload
  infer_instance

theorem dropWhile_ws_head (l : Str) (h : l.dropWhile isWs = l) (hne : l ≠ []) :
    ∃ c t, l = c :: t ∧ isWs c = false := by
  cases l with
  | nil => exact absurd rfl hne
  | cons c t =>
    refine ⟨c, t, rfl, ?_⟩
    by_contra hcon
    have hws : isWs c = true := by
      cases hcc : isWs c
      · exact absurd hcc hcon
      · rfl
    rw [List.dropWhile_cons, if_pos hws] at h
    have hlen := congrArg List.length h
    have hle := (List.dropWhile_suffix (l := t) isWs).length_le
    simp at hlen
    omega

theorem dropWhile_ws_append (l u : Str) (h : l.dropWhile isWs = l)
    (hne : l ≠ []) : (l ++ u).dropWhile isWs = l ++ u := by
  obtain ⟨c, t, rfl, hc⟩ := dropWhile_ws_head l h hne
  simp [List.dropWhile_cons, hc]

theorem trimRight_append (l p : Str) (hp : trimRight p = p) (hne : p ≠ []) :
    trimRight (l ++ p) = l ++ p := by
  have h1 : p.reverse.dropWhile isWs = p.reverse := by
    have := congrArg List.reverse hp
    rwa [trimRight, List.reverse_reverse] at this
  have h2 : p.reverse ≠ [] := by simpa using hne
  rw [trimRight, List.reverse_append, dropWhile_ws_append _ _ h1 h2,
    List.reverse_append, List.reverse_reverse, List.reverse_reverse]

theorem trim_data_line (p : Str) (h : goodPayload p) :
    trim (chars "data: " ++ p) = chars "data: " ++ p := by
  obtain ⟨hne, _, _, hR⟩ := h
  rw [trim, trimRight_append _ _ hR hne]
  have hd : chars "data: " ++ p = 'd' :: (chars "ata: " ++ p) := rfl
  rw [hd, trimLeft, List.dropWhile_cons]
  simp [isWs]

theorem trim_space_payload (p : Str) (h : goodPayload p) :
    trim (' ' :: p) = p := by
  obtain ⟨hne, _, hL, hR⟩ := h
  have h1 : trimRight (' ' :: p) = ' ' :: p := by
    have := trimRight_append [' '] p hR hne
    simpa using this
  rw [trim, h1, trimLeft, List.dropWhile_cons]
  have hsp : isWs ' ' = true := rfl
  rw [if_pos hsp]
  exact hL

/-- Running `handleLine` on a well-formed `data:` line: parse the payload and run
the dispatch chain, or skip silently when the payload does not parse. -/
theorem handleLine_data (parse : Str → Option JsonObj) (ev : Str)
    (cbs : List CB) (p : Str) (h : goodPayload p) :
    handleLine parse (ev, cbs) (chars "data: " ++ p) =
      match parse p with
      | none => (ev, cbs)
      | some o => ([], cbs ++ dispatch ev o) := by
  have h1 : startsWith (chars "event:") (chars "data: " ++ p) = false := rfl
  have h2 : startsWith (chars "data:") (chars "data: " ++ p) = true := rfl
  have h3 : (chars "data: " ++ p).drop 5 = ' ' :: p := rfl
  unfold handleLine
  rw [trim_data_line p h, h1, h2, h3, trim_space_payload p h]
  simp only [Bool.false_eq_true, if_false, if_true, if_neg h.1]

/-- One event of the §6 wire format. -/
inductive SSEItem
  | tokenEv (payload : Str)
  | doneItem (payload : Str)
  | errorItem (payload : Str)
deriving DecidableEq

/-- The data payload of an event. -/
def payloadOf : SSEItem → Str
  | .tokenEv p => p
  | .doneItem p => p
  | .errorItem p => p

/-- The two wire lines of one event. -/
def itemLines : SSEItem → List Str
  | .tokenEv p => [chars "event: token", chars "data: " ++ p]
  | .doneItem p => [chars "event: done", chars "data: " ++ p]
  | .errorItem p => [chars "event: error", chars "data: " ++ p]

/-- Terminate every line with a newline and concatenate. -/
def joinNl (lines : List Str) : Str :=
  lines.foldr (fun l acc => l ++ '\n' :: acc) []

/-- The full wire text of a sequence of events, every line
newline-terminated. -/
def streamText (items : List SSEItem) : Str :=
  joinNl ((items.map itemLines).flatten)

/-- The callbacks one event produces (its `event:` line sets the tag, its
`data:` line dispatches on the parsed payload). -/
def itemOut (parse : Str → Option JsonObj) : SSEItem → List CB
  | .tokenEv p =>
    match parse p with
    | none => []
    | some o => dispatch (chars "token") o
  | .doneItem p =>
    match parse p with
    | none => []
    | some o => dispatch (chars "done") o
  | .errorItem p =>
    match parse p with
    | none => []
    | some o => dispatch (chars "error") o

theorem handleLine_event_token (parse : Str → Option JsonObj)
    (st : Str × List CB) :
    handleLine parse st (chars "event: token") = (chars "token", st.2) := rfl

theorem handleLine_event_done (parse : Str → Option JsonObj)
    (st : Str × List CB) :
    handleLine parse st (chars "event: done") = (chars "done", st.2) := rfl

theorem handleLine_event_error (parse : Str → Option JsonObj)
    (st : Str × List CB) :
    handleLine parse st (chars "event: error") = (chars "error", st.2) := rfl

/-- Processing the two lines of a well-formed, parseable event from any
tag state: it emits exactly its callbacks and resets the tag. -/
theorem foldl_item (parse : Str → Option JsonObj) (ev : Str) (cbs : List CB)
    (it : SSEItem) (hp : goodPayload (payloadOf it))
    (hs : (parse (payloadOf it)).isSome = true) :
    (itemLines it).foldl (handleLine parse) (ev, cbs) =
      ([], cbs ++ itemOut parse it) := by
  cases it with
  | tokenEv p =>
    simp only [payloadOf] at hp hs
    rw [itemLines, List.foldl_cons, handleLine_event_token, List.foldl_cons,
      handleLine_data parse _ _ p hp, List.foldl_nil]
    cases hpp : parse p with
    | none => rw [hpp] at hs; simp at hs
    | some o => simp [itemOut, hpp]
  | doneItem p =>
    simp only [payloadOf] at hp hs
    rw [itemLines, List.foldl_cons, handleLine_event_done, List.foldl_cons,
      handleLine_data parse _ _ p hp, List.foldl_nil]
    cases hpp : parse p with
    | none => rw [hpp] at hs; simp at hs
    | some o => simp [itemOut, hpp]
  | errorItem p =>
    simp only [payloadOf] at hp hs
    rw [itemLines, List.foldl_cons, handleLine_event_error, List.foldl_cons,
      handleLine_data parse _ _ p hp, List.foldl_nil]
    cases hpp : parse p with
    | none => rw [hpp] at hs; simp at hs
    | some o => simp [itemOut, hpp]

/-- Processing a well-formed event sequence from the initial tag state
emits exactly the concatenation of the per-event callbacks. -/
theorem foldl_items (parse : Str → Option JsonObj) (items : List SSEItem)
    (cbs : List CB)
    (h : ∀ it ∈ items, goodPayload (payloadOf it) ∧
      (parse (payloadOf it)).isSome = true) :
    ((items.map itemLines).flatten).foldl (handleLine parse) ([], cbs) =
      ([], cbs ++ (items.map (itemOut parse)).flatten) := by
  induction items generalizing cbs with
  | nil => simp
  | cons it items ih =>
    simp only [List.map_cons, List.flatten_cons, List.foldl_append]
    rw [foldl_item parse [] cbs it (h it (List.mem_cons_self it items)).1
      (h it (List.mem_cons_self it items)).2]
    rw [ih _ (fun x hx => h x (List.mem_cons_of_mem it hx))]
    simp

theorem splitLines_line_cons (l t : Str) (h : '\n' ∉ l) :
    splitLines (l ++ '\n' :: t) = (l :: (splitLines t).1, (splitLines t).2) := by
  induction l with
  | nil => simp [splitLines_cons]
  | cons c l ih =>
    have hc : ¬ c = '\n' := fun hc => h (hc ▸ List.mem_cons_self c l)
    have hl : '\n' ∉ l := fun hm => h (List.mem_cons_of_mem c hm)
    rw [List.cons_append, splitLines_cons, ih hl, if_neg hc]

/-- Splitting a text in which every line is newline-terminated gives back
exactly those lines, with an empty remnant. -/
theorem splitLines_joinNl (lines : List Str) (h : ∀ l ∈ lines, '\n' ∉ l) :
    splitLines (joinNl lines) = (lines, []) := by
  induction lines with
  | nil => rfl
  | cons l lines ih =>
    have h1 : '\n' ∉ l := h l (List.mem_cons_self l lines)
    have h2 : ∀ x ∈ lines, '\n' ∉ x := fun x hx => h x (List.mem_cons_of_mem l hx)
    show splitLines (l ++ '\n' :: joinNl lines) = _
    rw [splitLines_line_cons l _ h1, ih h2]

/-- The `content` field of a parsed payload (empty when absent). -/
def contentOf (parse : Str → Option JsonObj) (p : Str) : Str :=
  match parse p with
  | some o => o.content.getD []
  | none => []

/-- The payload parses and carries a `content` field. -/
def contentDefined (parse : Str → Option JsonObj) (p : Str) : Bool :=
  match parse p with
  | some o => o.content.isSome
  | none => false

/-- The `error` field of a parsed payload (empty when absent). -/
def errorOf (parse : Str → Option JsonObj) (p : Str) : Str :=
  match parse p with
  | some o => o.error.getD []
  | none => []

/-- The payload parses and carries an `error` field. -/
def errorDefined (parse : Str → Option JsonObj) (p : Str) : Bool :=
  match parse p with
  | some o => o.error.isSome
  | none => false

/-- The event is a well-formed terminal event: a `done` event whose payload
parses, or an `error` event whose payload parses with an `error` field. -/
def termOk (parse : Str → Option JsonObj) : SSEItem → Bool
  | .doneItem p => (parse p).isSome
  | .errorItem p => errorDefined parse p
  | .tokenEv _ => false

/-- The single callback a well-formed terminal event produces. -/
def expectedTerm (parse : Str → Option JsonObj) : SSEItem → CB
  | .doneItem p => CB.doneEv ((parse p).getD default)
  | .errorItem p => CB.err (errorOf parse p)
  | .tokenEv p => CB.tok (contentOf parse p)

theorem itemOut_token (parse : Str → Option JsonObj) (p : Str)
    (h : contentDefined parse p = true) :
    itemOut parse (SSEItem.tokenEv p) = [CB.tok (contentOf parse p)] := by
  unfold contentDefined at h
  cases hpp : parse p with
  | none => rw [hpp] at h; simp at h
  | some o =>
    rw [hpp] at h
    have hcs : o.content.isSome = true := h
    cases hoc : o.content with
    | none => rw [hoc] at hcs; simp at hcs
    | some c => simp [itemOut, hpp, dispatch, hoc, contentOf]

theorem itemOut_done (parse : Str → Option JsonObj) (p : Str)
    (h : (parse p).isSome = true) :
    itemOut parse (SSEItem.doneItem p) = [CB.doneEv ((parse p).getD default)] := by
  cases hpp : parse p with
  | none => rw [hpp] at h; simp at h
  | some o =>
    have h1 : (chars "done" == chars "token") = false := rfl
    have h2 : (chars "done" == chars "error") = false := rfl
    have h3 : (chars "done" == chars "done") = true := rfl
    simp [itemOut, hpp, dispatch, h1, h2, h3]

theorem itemOut_error (parse : Str → Option JsonObj) (p : Str)
    (h : errorDefined parse p = true) :
    itemOut parse (SSEItem.errorItem p) = [CB.err (errorOf parse p)] := by
  unfold errorDefined at h
  cases hpp : parse p with
  | none => rw [hpp] at h; simp at h
  | some o =>
    rw [hpp] at h
    have hes : o.error.isSome = true := h
    cases hoe : o.error with
    | none => rw [hoe] at hes; simp at hes
    | some e =>
      have h1 : chars "error" ≠ chars "token" := by decide
      simp [itemOut, hpp, dispatch, hoe, errorOf, h1]

theorem flatten_map_singleton {α β : Type} (f : α → β) (l : List α) :
    (l.map (fun x => [f x])).flatten = l.map f := by
  induction l with
  | nil => rfl
  | cons x l ih => simp [ih]

/-- Every line of a well-formed event is newline-free. -/
theorem itemLines_no_nl (it : SSEItem) (h : '\n' ∉ payloadOf it) :
    ∀ l ∈ itemLines it, '\n' ∉ l := by
  cases it with
  | tokenEv p =>
    intro l hl
    simp only [itemLines, List.mem_cons, List.mem_singleton] at hl
    rcases hl with rfl | rfl | hl
    · decide
    · simp only [payloadOf] at h
      intro hm
      rcases List.mem_append.1 hm with hm | hm
      · revert hm; decide
      · exact h hm
    · exact absurd hl (List.not_mem_nil _)
  | doneItem p =>
    intro l hl
    simp only [itemLines, List.mem_cons, List.mem_singleton] at hl
    rcases hl with rfl | rfl | hl
    · decide
    · simp only [payloadOf] at h
      intro hm
      rcases List.mem_append.1 hm with hm | hm
      · revert hm; decide
      · exact h hm
    · exact absurd hl (List.not_mem_nil _)
  | errorItem p =>
    intro l hl
    simp only [itemLines, List.mem_cons, List.mem_singleton] at hl
    rcases hl with rfl | rfl | hl
    · decide
    · simp only [payloadOf] at h
      intro hm
      rcases List.mem_append.1 hm with hm | hm
      · revert hm; decide
      · exact h hm
    · exact absurd hl (List.not_mem_nil _)

theorem contentDefined_isSome (parse : Str → Option JsonObj) (p : Str)
    (h : contentDefined parse p = true) : (parse p).isSome = true := by
  unfold contentDefined at h
  cases hpp : parse p with
  | none => rw [hpp] at h; simp at h
  | some o => rfl

theorem errorDefined_isSome (parse : Str → Option JsonObj) (p : Str)
    (h : errorDefined parse p = true) : (parse p).isSome = true := by
  unfold errorDefined at h
  cases hpp : parse p with
  | none => rw [hpp] at h; simp at h
  | some o => rfl

/-- C1 (amended: every line of the stream, the last included, is
newline-terminated).  For every SSE response stream whose decoded lines
form zero or more `event: token` / `data:` pairs followed by exactly one
terminal event (`done` or `error`), `chatService.sendMessageStream`
invokes `onToken` once per token event with that event's `content`, in
stream order, and then invokes exactly one of `onDone` (with the done
payload) or `onError` (with the error message) — never both and never
neither — regardless of how the byte stream is split into chunks. -/
theorem c1_stream_protocol_callbacks
    (parse : Str → Option JsonObj) (toks : List Str) (term : SSEItem)
    (chunks : List Str)
    (hjoin : chunks.flatten = streamText (toks.map SSEItem.tokenEv ++ [term]))
    (htoks : ∀ p ∈ toks, goodPayload p ∧ contentDefined parse p = true)
    (hterm : goodPayload (payloadOf term) ∧ termOk parse term = true) :
    sendMessageStream parse chunks =
      toks.map (fun p => CB.tok (contentOf parse p)) ++
        [expectedTerm parse term] := by
  have hgood : ∀ it ∈ toks.map SSEItem.tokenEv ++ [term],
      goodPayload (payloadOf it) ∧ (parse (payloadOf it)).isSome = true := by
    intro it hit
    rcases List.mem_append.1 hit with hit | hit
    · obtain ⟨p, hp, rfl⟩ := List.mem_map.1 hit
      exact ⟨(htoks p hp).1, contentDefined_isSome parse p (htoks p hp).2⟩
    · rw [List.mem_singleton] at hit
      subst hit
      refine ⟨hterm.1, ?_⟩
      cases it with
      | tokenEv p => simp [termOk] at hterm
      | doneItem p => exact hterm.2
      | errorItem p => exact errorDefined_isSome parse p hterm.2
  have hnl : ∀ l ∈ ((toks.map SSEItem.tokenEv ++ [term]).map itemLines).flatten,
      '\n' ∉ l := by
    intro l hl
    obtain ⟨ls, hls, hlm⟩ := List.mem_flatten.1 hl
    obtain ⟨it, hit, rfl⟩ := List.mem_map.1 hls
    exact itemLines_no_nl it (hgood it hit).1.2.1 l hlm
  rw [sendMessageStream_join, hjoin]
  unfold streamText
  rw [splitLines_joinNl _ hnl, foldl_items parse _ [] hgood]
  simp only [List.nil_append]
  rw [List.map_append, List.flatten_append, List.map_map]
  have h1 : toks.map (itemOut parse ∘ SSEItem.tokenEv) =
      toks.map (fun p => [CB.tok (contentOf parse p)]) := by
    apply List.map_congr_left
    intro p hp
    exact itemOut_token parse p (htoks p hp).2
  rw [h1, flatten_map_singleton]
  have h2 : ([term].map (itemOut parse)).flatten = [expectedTerm parse term] := by
    cases term with
    | tokenEv p => simp [termOk] at hterm
    | doneItem p =>
      simp only [List.map_cons, List.map_nil, List.flatten]
      rw [itemOut_done parse p hterm.2]
      simp [expectedTerm]
    | errorItem p =>
      simp only [List.map_cons, List.map_nil, List.flatten]
      rw [itemOut_error parse p hterm.2]
      simp [expectedTerm]
  rw [h2]

/-- A concrete stand-in for `JSON.parse` on three demo payloads. -/
def parseDemo : Str → Option JsonObj := fun p =>
  if p = chars "T1" then
    some ⟨some (chars "Hello "), none, none, none, none, none, none⟩
  else if p = chars "T2" then
    some ⟨some (chars "world"), none, none, none, none, none, none⟩
  else if p = chars "D1" then
    some ⟨none, none, some 1, some 0, some false, some false,
      some (chars "Hello world")⟩
  else none

/-- A chunking of a two-token stream that cuts in the middle of lines. -/
def demoChunks : List Str :=
  [chars "event: tok", chars "en\ndata: T1\nevent:",
   chars " token\ndata: T2\nevent: done\ndata: D1\n"]

theorem c1_stream_protocol_callbacks_witness :
    sendMessageStream parseDemo demoChunks =
      [CB.tok (chars "Hello "), CB.tok (chars "world"),
       CB.doneEv ⟨none, none, some 1, some 0, some false, some false,
         some (chars "Hello world")⟩] := by
  have h := c1_stream_protocol_callbacks parseDemo
    [chars "T1", chars "T2"] (SSEItem.doneItem (chars "D1")) demoChunks
    (by decide) (by decide) (by decide)
  rw [h]
  rfl

/-- A single-chunk stream whose final data line lacks the trailing
newline. -/
def noNlChunks : List Str := [chars "event: done\ndata: D1"]

/-- C1 counterexample: this stream's decoded lines form exactly one
well-formed terminal `done` event, yet `sendMessageStream` invokes no
callback at all — the text after the last newline is never processed, so
the claim as stated (which does not require the final line to be
newline-terminated) fails: neither `onDone` nor `onError` runs. -/
theorem c1_counterexample :
    decodedLines (noNlChunks.flatten) =
        itemLines (SSEItem.doneItem (chars "D1")) ∧
      goodPayload (chars "D1") ∧
      termOk parseDemo (SSEItem.doneItem (chars "D1")) = true ∧
      sendMessageStream parseDemo noNlChunks = [] := by
  refine ⟨by decide, by decide, by decide, by decide⟩

/-- C9: a `data:` line whose payload does not parse as JSON is skipped —
the catch block swallows the exception, no callback (in particular not
`onError`) is invoked for it — and every well-formed `token` / `done` /
`error` event around it is still delivered to its callback. -/
theorem c9_invalid_json_skipped
    (parse : Str → Option JsonObj) (items1 items2 : List SSEItem)
    (badp : Str) (chunks : List Str)
    (hbad : goodPayload badp ∧ parse badp = none)
    (hjoin : chunks.flatten =
      joinNl ((items1.map itemLines).flatten ++ [chars "data: " ++ badp]
        ++ (items2.map itemLines).flatten))
    (hitems : ∀ it ∈ items1 ++ items2, goodPayload (payloadOf it) ∧
      (parse (payloadOf it)).isSome = true) :
    sendMessageStream parse chunks =
      ((items1 ++ items2).map (itemOut parse)).flatten := by
  have h1 : ∀ it ∈ items1, goodPayload (payloadOf it) ∧
      (parse (payloadOf it)).isSome = true :=
    fun it hit => hitems it (List.mem_append.2 (Or.inl hit))
  have h2 : ∀ it ∈ items2, goodPayload (payloadOf it) ∧
      (parse (payloadOf it)).isSome = true :=
    fun it hit => hitems it (List.mem_append.2 (Or.inr hit))
  have hnl : ∀ l ∈ (items1.map itemLines).flatten ++
      [chars "data: " ++ badp] ++ (items2.map itemLines).flatten,
      '\n' ∉ l := by
    intro l hl
    rcases List.mem_append.1 hl with hl | hl
    · rcases List.mem_append.1 hl with hl | hl
      · obtain ⟨ls, hls, hlm⟩ := List.mem_flatten.1 hl
        obtain ⟨it, hit, rfl⟩ := List.mem_map.1 hls
        exact itemLines_no_nl it (h1 it hit).1.2.1 l hlm
      · rw [List.mem_singleton] at hl
        subst hl
        intro hm
        rcases List.mem_append.1 hm with hm | hm
        · revert hm; decide
        · exact hbad.1.2.1 hm
    · obtain ⟨ls, hls, hlm⟩ := List.mem_flatten.1 hl
      obtain ⟨it, hit, rfl⟩ := List.mem_map.1 hls
      exact itemLines_no_nl it (h2 it hit).1.2.1 l hlm
  rw [sendMessageStream_join, hjoin, splitLines_joinNl _ hnl]
  rw [List.foldl_append, List.foldl_append]
  rw [foldl_items parse items1 [] h1]
  rw [List.foldl_cons, List.foldl_nil,
    handleLine_data parse _ _ badp hbad.1, hbad.2]
  rw [foldl_items parse items2 _ h2]
  simp

theorem c9_invalid_json_skipped_witness :
    sendMessageStream parseDemo
      [chars "event: token\ndata: T1\ndata: BAD\nevent: done\ndata: D1\n"] =
      [CB.tok (chars "Hello "),
       CB.doneEv ⟨none, none, some 1, some 0, some false, some false,
         some (chars "Hello world")⟩] := by
  have h := c9_invalid_json_skipped parseDemo
    [SSEItem.tokenEv (chars "T1")] [SSEItem.doneItem (chars "D1")]
    (chars "BAD")
    [chars "event: token\ndata: T1\ndata: BAD\nevent: done\ndata: D1\n"]
    (by decide) (by decide) (by decide)
  rw [h]
  rfl

/-! Section: Chat page handlers and progression state (`DashboardPage.tsx`,
`auth.ts`, `api.ts`; backend endpoints modelled from the spec) -/

/-- A chat message as the pages hold it (`types/api.ts`); the wall-clock
timestamp is omitted. -/
structure ChatMessage where
  role : Str
  content : Str
deriving DecidableEq

/-- The `done` event payload (`types/api.ts` `SSEDoneEvent`);
`full_response` is optional. -/
structure SSEDoneEvent where
  current_day : Nat
  current_topic_index : Nat
  is_day_complete : Bool
  is_course_complete : Bool
  full_response : Option Str
deriving DecidableEq

/-- A network request the chat page can issue. -/
inductive Request
  | gotoDayReq (day : Nat)
  | advanceDayReq
  | updateProgressReq
  | historyReq
  | startLessonReq (day : Nat)
deriving DecidableEq

/-- The `ChatPage` component state relevant to the chat flow, plus a log
`reqs` of the network requests issued so far. -/
structure ChatPageState where
  messages : List ChatMessage
  streamingRef : Str
  streamingContent : Str
  isSending : Bool
  currentDay : Nat
  totalDays : Nat
  completedDay : Nat
  showDayCompleteModal : Bool
  reqs : List Request
deriving DecidableEq

/-- The `onToken` callback of `ChatPage.handleSend`
(`DashboardPage.tsx:356-359`): accumulate into the ref and mirror it into
the display state. -/
def handleSendOnToken (st : ChatPageState) (token : Str) : ChatPageState :=
  { st with streamingRef := st.streamingRef ++ token,
            streamingContent := st.streamingRef ++ token }

/-- The `onDone` callback of `ChatPage.handleSend`
(`DashboardPage.tsx:361-383`).  `streamingContentRef.current ||
data.full_response || ''` picks the accumulated ref when nonempty, else
the event's `full_response`, else the empty string. -/
def handleSendOnDone (st : ChatPageState) (data : SSEDoneEvent) :
    ChatPageState :=
  let fullResponse :=
    if st.streamingRef ≠ [] then st.streamingRef
    else data.full_response.getD []
  let st1 :=
    if fullResponse ≠ [] then
      { st with messages :=
          st.messages ++ [ChatMessage.mk (chars "assistant") fullResponse] }
    else st
  let st2 := { st1 with
    streamingContent := [], streamingRef := [], isSending := false }
  if data.is_day_complete then
    { st2 with completedDay := st2.currentDay, showDayCompleteModal := true }
  else st2

/-- The `onError` callback of `ChatPage.handleSend`
(`DashboardPage.tsx:384-390`). -/
def handleSendOnError (st : ChatPageState) (_e : Str) : ChatPageState :=
  { st with isSending := false, streamingContent := [], streamingRef := [] }

/-- A streamed exchange seen by the `ChatPage` callbacks: every token
fragment in order, then the `done` event. -/
def runChatPageStream (st : ChatPageState) (tokens : List Str)
    (d : SSEDoneEvent) : ChatPageState :=
  handleSendOnDone (tokens.foldl handleSendOnToken st) d

/-- The state of the `useChat` hook (`unnamed/part_001`). -/
structure UseChatState where
  messages : List ChatMessage
  streamingContent : Str
  isStreaming : Bool
deriving DecidableEq

/-- The hook `useChat`'s `onToken`: a functional state update, so it reads the
latest accumulated value. -/
def useChatOnToken (st : UseChatState) (token : Str) : UseChatState :=
  { st with streamingContent := st.streamingContent ++ token }

/-- The hook `useChat.sendMessage`'s `onDone` (`unnamed/part_001:210-228`).  It
reads the plain `streamingContent` variable, which under React closure
semantics is the snapshot captured when the in-flight `sendMessage`
closure was created — the render before the stream started — not the
value accumulated by the functional updates; `captured` is that
snapshot (`captured || ''` equals `captured`). -/
def useChatOnDone (captured : Str) (st : UseChatState) : UseChatState :=
  { st with
    messages := st.messages ++ [ChatMessage.mk (chars "assistant") captured],
    streamingContent := [], isStreaming := false }

/-- A streamed exchange seen by the `useChat` callbacks. -/
def useChatRunStream (captured : Str) (st : UseChatState)
    (tokens : List Str) : UseChatState :=
  useChatOnDone captured (tokens.foldl useChatOnToken st)

/-- Session status (`§4.4`). -/
inductive Status
  | PLANNING
  | READY
  | IN_PROGRESS
  | COMPLETED
deriving DecidableEq

/-- The progress tuple of a session. -/
structure Progress where
  current_day : Nat
  current_topic_index : Nat
  total_days : Nat
  status : Status
deriving DecidableEq

/-- Named domain errors of the progression endpoints (§7). -/
inductive ProgressError
  | alreadyAtLastDay
  | invalidDay
  | invalidState
deriving DecidableEq

/-- Modelled from the spec: the `advance-day` transition of §4.4 — the
backend implementation is absent from the repository sources.  On
`current_day = total_days` it always fails with `AlreadyAtLastDay`;
otherwise an `IN_PROGRESS` session advances one day with the topic index
reset. -/
def advanceDay (p : Progress) : Except ProgressError Progress :=
  if p.current_day = p.total_days then .error .alreadyAtLastDay
  else if p.status = Status.IN_PROGRESS ∧ p.current_day < p.total_days then
    .ok { p with current_day := p.current_day + 1, current_topic_index := 0 }
  else .error .invalidState

/-- Modelled from the spec: the `goto-day(n)` transition of §4.4 — the
backend implementation is absent from the repository sources.  For
`1 ≤ n ≤ total_days` it sets `current_day = n` and
`current_topic_index = 0`; out-of-range days are rejected as domain
errors. -/
def gotoDay (p : Progress) (n : Nat) : Except ProgressError Progress :=
  if 1 ≤ n ∧ n ≤ p.total_days then
    .ok { p with current_day := n, current_topic_index := 0 }
  else .error .invalidDay

/-- The `advance-day` endpoint as a state transformer: a failing request leaves the
progress tuple untouched. -/
def advanceDayStep (p : Progress) : Progress × Option ProgressError :=
  match advanceDay p with
  | .ok q => (q, none)
  | .error e => (p, some e)

/-- The backend state the chat page talks to: the progress cursor plus,
modelled from the spec, the per-day chat histories (turns are partitioned
by day) and the per-day start-lesson welcome messages. -/
structure Backend where
  progress : Progress
  history : Nat → List ChatMessage
  welcome : Nat → Str

/-- Modelled from the spec: the history endpoint takes no day parameter
and returns the buffer of the session's current day. -/
def historyApi (b : Backend) : List ChatMessage :=
  b.history b.progress.current_day

/-- The `start-lesson` response fields the page consumes. -/
structure StartLessonResp where
  current_day : Nat
  welcome_message : Str

/-- Modelled from the spec / API README: starting the lesson for a day
returns that day as the cursor together with its welcome message. -/
def startLessonApi (b : Backend) (day : Nat) : StartLessonResp :=
  ⟨day, b.welcome day⟩

/-- The `goto-day` endpoint acting on the backend state. -/
def gotoDayApi (b : Backend) (n : Nat) :
    Except ProgressError (Backend × Progress) :=
  match gotoDay b.progress n with
  | .ok p => .ok ({ b with progress := p }, p)
  | .error e => .error e

/-- The handler `ChatPage.handleDayClick` (`DashboardPage.tsx:435-459`): guard, then
`gotoDay`, then clear the message list, set the day, fetch the history and
either show it or start the lesson (which appends the welcome message).
Returns the new backend, the new page state, and the trace of values
passed to `setMessages`, in order.  The `!sessionId` guard and the
rejection paths of the history/start-lesson calls are outside this
model. -/
def handleDayClick (b : Backend) (st : ChatPageState) (day : Nat) :
    Backend × ChatPageState × List (List ChatMessage) :=
  if day > st.totalDays ∨ day = st.currentDay then (b, st, [])
  else
    match gotoDayApi b day with
    | .error _ =>
      (b, { st with reqs := st.reqs ++ [Request.gotoDayReq day] }, [])
    | .ok (b2, _) =>
      let st1 := { st with
        reqs := st.reqs ++ [Request.gotoDayReq day, Request.historyReq],
        messages := [], currentDay := day }
      if (historyApi b2).isEmpty then
        let resp := startLessonApi b2 day
        let msgs := [ChatMessage.mk (chars "assistant") resp.welcome_message]
        (b2, { st1 with
                currentDay := resp.current_day, messages := msgs,
                reqs := st1.reqs ++ [Request.startLessonReq day] },
          [[], msgs])
      else (b2, { st1 with messages := historyApi b2 }, [[], historyApi b2])

/-- The day list rendered by the sidebar
(`DashboardPage.tsx:563`): `Array.from({length: total_days}, (_, i) => i + 1)`. -/
def sidebarDays (totalDays : Nat) : List Nat :=
  (List.range totalDays).map (fun i => i + 1)

/-- The argument the day-complete modal's Start Day button passes to
`handleDayClick` (`DashboardPage.tsx:871-881`). -/
def modalStartDayArg (st : ChatPageState) : Nat := st.completedDay + 1

/-- The render guard of the modal's Start Day button
(`completedDay < (session?.total_days || 0)`). -/
def modalStartDayVisible (st : ChatPageState) : Prop :=
  st.completedDay < st.totalDays

/-- A fetch response as `apiRequest` sees it: HTTP ok flag, parsed body,
error detail. -/
structure FetchResponse (α : Type) where
  ok : Bool
  body : α
  detail : Str

/-- The helper `apiRequest` (`api.ts:16-41`): a non-ok response throws the detail
message, otherwise the parsed body is returned; no other state is
touched. -/
def apiRequest {α : Type} (r : FetchResponse α) : Except Str α :=
  if !r.ok then .error r.detail else .ok r.body

/-- The HTTP error detail of each progression domain error (API README:
advance-day answers 400 "Already on the last day"). -/
def progressErrorDetail : ProgressError → Str
  | .alreadyAtLastDay => chars "Already on the last day"
  | .invalidDay => chars "Invalid day"
  | .invalidState => chars "Invalid session state"

/-- The wire response of the advance-day endpoint for a session with
progress `p`. -/
def advanceDayResponse (p : Progress) : FetchResponse Progress :=
  match advanceDay p with
  | .ok q => ⟨true, q, []⟩
  | .error e => ⟨false, p, progressErrorDetail e⟩

/-- The client `sessionService.advanceDay` (`auth.ts:167-171`): `apiRequest` on the
advance-day endpoint; the client function holds no progress state of its
own, so a failure surfaces solely as a thrown error. -/
def sessionServiceAdvanceDay (p : Progress) : Except Str Progress :=
  apiRequest (advanceDayResponse p)

/-! Section: Memory Buffer Manager (modelled from the spec, §4.1) -/

/-- The per-(session, day) buffer state: the raw turns, the append-only
summaries and a count of summarizer invocations.  Modelled from the spec:
the Memory Buffer Manager is backend code absent from the repository
sources. -/
structure BufferState where
  buffer : List Str
  summaries : List Str
  summarizeCalls : Nat
deriving DecidableEq

/-- Modelled from the spec: `append(sessionId, day, turn)` (§4.1) — add
the turn; if the buffer length reaches the threshold `B`, synchronously
summarize the whole buffer (one summarizer call, one new summary) and
clear it before returning. -/
def appendTurn (B : Nat) (summarize : List Str → Str) (st : BufferState)
    (t : Str) : BufferState :=
  let buf := st.buffer ++ [t]
  if B ≤ buf.length then
    { buffer := [],
      summaries := st.summaries ++ [summarize buf],
      summarizeCalls := st.summarizeCalls + 1 }
  else { st with buffer := buf }

/-- A fresh buffer. -/
def freshBuffer : BufferState := ⟨[], [], 0⟩

/-- A demo summarizer and ten demo turns for the end-to-end scenario. -/
def demoSummarize : List Str → Str := fun _ => chars "summary"

def demoTurns : List Str := List.replicate 10 (chars "turn")

/-! Section: Progress computations (`SessionsPage.tsx`, `DashboardPage.tsx`,
`ProgressBar.tsx`) -/

/-- The computation `SessionsPage.getProgressPercentage` (`SessionsPage.tsx:55-57`);
JavaScript number arithmetic is modelled over `ℚ`. -/
def sessionsPageProgress (currentDay totalDays : ℚ) : ℚ :=
  ((currentDay - 1) / totalDays) * 100

/-- The computation `DashboardPage.getProgressPercentage` (`DashboardPage.tsx:73-75`). -/
def dashboardProgress (currentDay totalDays : ℚ) : ℚ :=
  ((currentDay - 1) / totalDays) * 100

/-- The computation `SessionDetailPage.progressPercentage` (`SessionsPage.tsx:547`). -/
def sessionDetailProgress (currentDay totalDays : ℚ) : ℚ :=
  ((currentDay - 1) / totalDays) * 100

/-- The percentage computed by `ProgressBar` (`ProgressBar.tsx:16`). -/
def progressBarPercentage (value maxVal : ℚ) : ℚ :=
  min 100 (max 0 ((value / maxVal) * 100))

/-! Section: Claim theorems -/

/-- C2 (code evidence): for a streamed exchange delivering fragments
"Hel", "lo" and a conforming `done` event, `ChatPage.handleSend`'s
`onDone` records an assistant message whose content is the full
aggregated text "Hello", but the `useChat` hook's `onDone` — whose
in-flight closure reads the render-time snapshot of `streamingContent`,
empty at a fresh send — records the empty string instead of the
aggregated text.  The claim that both handlers record the concatenation
of the received fragments is therefore violated by `useChat.sendMessage`. -/
theorem c2_useChat_stale_closure :
    (runChatPageStream ⟨[], [], [], true, 1, 5, 0, false, []⟩
        [chars "Hel", chars "lo"]
        ⟨1, 0, false, false, some (chars "Hello")⟩).messages =
      [ChatMessage.mk (chars "assistant") (chars "Hello")] ∧
    (useChatRunStream [] ⟨[], [], true⟩ [chars "Hel", chars "lo"]).messages =
      [ChatMessage.mk (chars "assistant") []] ∧
    chars "Hello" ≠ [] := by
  refine ⟨by decide, by decide, by decide⟩

/-- C3: when a `done` event carries `is_day_complete = true`,
`ChatPage.handleSend`'s `onDone` issues no network request at all (in
particular no goto-day, advance-day or update-progress), leaves the
current day unchanged, and only sets the modal state: `completedDay`
becomes the current day and the day-complete modal is shown.  The day
pointer can change only through a later explicit `handleDayClick` call
such as the modal's Start Day button. -/
theorem c3_day_complete_is_advisory (st : ChatPageState) (d : SSEDoneEvent)
    (h : d.is_day_complete = true) :
    (handleSendOnDone st d).reqs = st.reqs ∧
    (handleSendOnDone st d).currentDay = st.currentDay ∧
    (handleSendOnDone st d).totalDays = st.totalDays ∧
    (handleSendOnDone st d).completedDay = st.currentDay ∧
    (handleSendOnDone st d).showDayCompleteModal = true := by
  unfold handleSendOnDone
  simp only [h, if_true]
  split
  · simp
  · split <;> simp

theorem c3_day_complete_is_advisory_witness :
    (handleSendOnDone ⟨[], chars "Hi", chars "Hi", true, 3, 5, 0, false, []⟩
        ⟨3, 0, true, false, none⟩).reqs = [] ∧
    (handleSendOnDone ⟨[], chars "Hi", chars "Hi", true, 3, 5, 0, false, []⟩
        ⟨3, 0, true, false, none⟩).currentDay = 3 ∧
    (handleSendOnDone ⟨[], chars "Hi", chars "Hi", true, 3, 5, 0, false, []⟩
        ⟨3, 0, true, false, none⟩).totalDays = 5 ∧
    (handleSendOnDone ⟨[], chars "Hi", chars "Hi", true, 3, 5, 0, false, []⟩
        ⟨3, 0, true, false, none⟩).completedDay = 3 ∧
    (handleSendOnDone ⟨[], chars "Hi", chars "Hi", true, 3, 5, 0, false, []⟩
        ⟨3, 0, true, false, none⟩).showDayCompleteModal = true :=
  c3_day_complete_is_advisory ⟨[], chars "Hi", chars "Hi", true, 3, 5, 0, false, []⟩
    ⟨3, 0, true, false, none⟩ (by decide)

/-- C4: for a day `n` with `1 ≤ n ≤ total_days` and `n` different from the
current day, `handleDayClick n` first clears the displayed message list
(the `setMessages` trace starts with `[]`) and then shows exactly the
stored chat history of day `n`, falling back to starting the lesson —
which appends its welcome message — when that history is empty; the
current day of both the page and the backend ends at `n`. -/
theorem c4_handleDayClick_fresh_view (b : Backend) (st : ChatPageState)
    (day : Nat) (h1 : 1 ≤ day) (h2 : day ≤ st.totalDays)
    (h3 : day ≠ st.currentDay)
    (hsync : b.progress.total_days = st.totalDays) :
    (handleDayClick b st day).2.1.messages =
      (if (b.history day).isEmpty then
        [ChatMessage.mk (chars "assistant") (b.welcome day)]
       else b.history day) ∧
    (handleDayClick b st day).2.2 =
      [[], (handleDayClick b st day).2.1.messages] ∧
    (handleDayClick b st day).2.1.currentDay = day ∧
    (handleDayClick b st day).1.progress.current_day = day := by
  have hguard : ¬ (day > st.totalDays ∨ day = st.currentDay) := by
    push_neg
    exact ⟨by omega, h3⟩
  have hgoto : gotoDayApi b day =
      .ok ({ b with progress :=
              { b.progress with current_day := day, current_topic_index := 0 } },
            { b.progress with current_day := day, current_topic_index := 0 }) := by
    unfold gotoDayApi gotoDay
    rw [if_pos ⟨h1, by omega⟩]
  unfold handleDayClick
  rw [if_neg hguard, hgoto]
  simp only [historyApi, startLessonApi]
  split <;> simp_all

theorem c4_handleDayClick_fresh_view_witness :
    (handleDayClick
        ⟨⟨1, 0, 5, Status.IN_PROGRESS⟩,
         fun d => if d = 2 then [ChatMessage.mk (chars "human") (chars "hey")] else [],
         fun _ => chars "welcome"⟩
        ⟨[ChatMessage.mk (chars "human") (chars "old")], [], [], false, 1, 5, 0, false, []⟩
        2).2.1.messages =
      (if ((fun d => if d = 2 then
              [ChatMessage.mk (chars "human") (chars "hey")] else []) 2 :
            List ChatMessage).isEmpty then
        [ChatMessage.mk (chars "assistant") (chars "welcome")]
       else [ChatMessage.mk (chars "human") (chars "hey")]) ∧
    (handleDayClick
        ⟨⟨1, 0, 5, Status.IN_PROGRESS⟩,
         fun d => if d = 2 then [ChatMessage.mk (chars "human") (chars "hey")] else [],
         fun _ => chars "welcome"⟩
        ⟨[ChatMessage.mk (chars "human") (chars "old")], [], [], false, 1, 5, 0, false, []⟩
        2).2.1.currentDay = 2 := by
  have h := c4_handleDayClick_fresh_view
    ⟨⟨1, 0, 5, Status.IN_PROGRESS⟩,
     fun d => if d = 2 then [ChatMessage.mk (chars "human") (chars "hey")] else [],
     fun _ => chars "welcome"⟩
    ⟨[ChatMessage.mk (chars "human") (chars "old")], [], [], false, 1, 5, 0, false, []⟩
    2 (by decide) (by decide) (by decide) (by decide)
  exact ⟨h.1, h.2.2.1⟩

/-- C5 (modelled from the spec, §4.1): `append` keeps the buffer strictly
below the threshold; the append that makes the length reach `B` performs
exactly one synchronous summarization — the buffer ends empty and exactly
one summary is added — while a below-threshold append only stores the
turn; and ten consecutive turns into a fresh buffer with `B = 10` yield
exactly one summarizer call, buffer length 0 and summary count 1. -/
theorem c5_append_threshold (B : Nat) (summarize : List Str → Str)
    (st : BufferState) (t : Str) (hB : 0 < B) (hlt : st.buffer.length < B) :
    ((appendTurn B summarize st t).buffer.length < B ∧
     (st.buffer.length + 1 = B →
       appendTurn B summarize st t =
         ⟨[], st.summaries ++ [summarize (st.buffer ++ [t])],
          st.summarizeCalls + 1⟩) ∧
     (st.buffer.length + 1 < B →
       appendTurn B summarize st t = { st with buffer := st.buffer ++ [t] })) ∧
    ((demoTurns.foldl (appendTurn 10 demoSummarize) freshBuffer).buffer = [] ∧
     (demoTurns.foldl (appendTurn 10 demoSummarize)
        freshBuffer).summaries.length = 1 ∧
     (demoTurns.foldl (appendTurn 10 demoSummarize)
        freshBuffer).summarizeCalls = 1) := by
  refine ⟨?_, by decide, by decide, by decide⟩
  have hlen : (st.buffer ++ [t]).length = st.buffer.length + 1 := by simp
  unfold appendTurn
  by_cases hth : B ≤ st.buffer.length + 1
  · rw [if_pos (by rw [hlen]; exact hth)]
    exact ⟨by simpa using hB, fun _ => rfl, fun hcon => by omega⟩
  · rw [if_neg (by rw [hlen]; omega)]
    refine ⟨by simp only [hlen]; omega, fun heq => by omega, fun _ => rfl⟩

theorem c5_append_threshold_witness :
    (appendTurn 10 demoSummarize
        ⟨List.replicate 9 (chars "turn"), [], 0⟩ (chars "turn")).buffer.length
      < 10 ∧
    appendTurn 10 demoSummarize
        ⟨List.replicate 9 (chars "turn"), [], 0⟩ (chars "turn") =
      ⟨[], [demoSummarize (List.replicate 9 (chars "turn") ++ [chars "turn"])],
       1⟩ := by
  have h := c5_append_threshold 10 demoSummarize
    ⟨List.replicate 9 (chars "turn"), [], 0⟩ (chars "turn")
    (by decide) (by decide)
  exact ⟨h.1.1, h.1.2.1 (by decide)⟩

/-- C6 (`advance-day` modelled from the spec §4.4; client from
`auth.ts:167-171` and `api.ts:16-41`): a session whose cursor sits on its
last day always fails an advance-day request with `AlreadyAtLastDay`,
leaving the progress tuple (day, topic index, status) unchanged, and the
client propagates the failure as a thrown error without mutating any
progress state of its own. -/
theorem c6_advance_day_last_day_noop (p : Progress)
    (h : p.current_day = p.total_days) :
    advanceDay p = .error .alreadyAtLastDay ∧
    advanceDayStep p = (p, some .alreadyAtLastDay) ∧
    sessionServiceAdvanceDay p = .error (chars "Already on the last day") := by
  have h1 : advanceDay p = .error .alreadyAtLastDay := by
    unfold advanceDay
    rw [if_pos h]
  refine ⟨h1, ?_, ?_⟩
  · unfold advanceDayStep
    rw [h1]
  · unfold sessionServiceAdvanceDay advanceDayResponse
    rw [h1]
    rfl

theorem c6_advance_day_last_day_noop_witness :
    advanceDay ⟨5, 2, 5, Status.IN_PROGRESS⟩ = .error .alreadyAtLastDay ∧
    advanceDayStep ⟨5, 2, 5, Status.IN_PROGRESS⟩ =
      (⟨5, 2, 5, Status.IN_PROGRESS⟩, some .alreadyAtLastDay) ∧
    sessionServiceAdvanceDay ⟨5, 2, 5, Status.IN_PROGRESS⟩ =
      .error (chars "Already on the last day") :=
  c6_advance_day_last_day_noop ⟨5, 2, 5, Status.IN_PROGRESS⟩ (by decide)

/-- C7 (`goto-day` modelled from the spec §4.4; client from
`DashboardPage.tsx:435-441` and its call sites): an in-range goto-day sets
`current_day = n` and `current_topic_index = 0` with no guard against
skipping ahead; `handleDayClick` returns early — issuing no request and
changing nothing — when the day exceeds `total_days` or equals the
current day; and every call site passes a day `≥ 1` (the sidebar passes
`1..total_days`, the modal button passes `completedDay + 1 ≤
total_days`). -/
theorem c7_goto_day_contract :
    (∀ (p : Progress) (n : Nat), 1 ≤ n → n ≤ p.total_days →
      gotoDay p n = .ok { p with current_day := n, current_topic_index := 0 }) ∧
    (∀ (b : Backend) (st : ChatPageState) (day : Nat),
      day > st.totalDays ∨ day = st.currentDay →
      handleDayClick b st day = (b, st, [])) ∧
    (∀ totalDays : Nat, ∀ d ∈ sidebarDays totalDays, 1 ≤ d ∧ d ≤ totalDays) ∧
    (∀ st : ChatPageState, modalStartDayVisible st →
      1 ≤ modalStartDayArg st ∧ modalStartDayArg st ≤ st.totalDays) := by
  refine ⟨?_, ?_, ?_, ?_⟩
  · intro p n h1 h2
    unfold gotoDay
    rw [if_pos ⟨h1, h2⟩]
  · intro b st day h
    unfold handleDayClick
    rw [if_pos h]
  · intro total d hd
    obtain ⟨i, hi, rfl⟩ := List.mem_map.1 hd
    rw [List.mem_range] at hi
    omega
  · intro st h
    unfold modalStartDayVisible at h
    unfold modalStartDayArg
    omega

theorem c7_goto_day_contract_witness :
    gotoDay ⟨4, 3, 5, Status.IN_PROGRESS⟩ 2 =
      .ok ⟨2, 0, 5, Status.IN_PROGRESS⟩ :=
  c7_goto_day_contract.1 ⟨4, 3, 5, Status.IN_PROGRESS⟩ 2 (by decide) (by decide)

/-- C8: each page's progress computation returns exactly
`((current_day - 1) / total_days) * 100`, which is `0` on day 1 and, for
every cursor with `1 ≤ current_day ≤ total_days`, is strictly below 100
and at most `((total_days - 1) / total_days) * 100` — so a COMPLETED
session whose cursor rests on its last day never displays 100. -/
theorem c8_progress_below_100 (cd td : Nat) (h1 : 1 ≤ cd) (h2 : cd ≤ td) :
    sessionsPageProgress cd td = (((cd : ℚ) - 1) / td) * 100 ∧
    dashboardProgress cd td = (((cd : ℚ) - 1) / td) * 100 ∧
    sessionDetailProgress cd td = (((cd : ℚ) - 1) / td) * 100 ∧
    (cd = 1 → sessionsPageProgress cd td = 0) ∧
    sessionsPageProgress cd td < 100 ∧
    sessionsPageProgress cd td ≤ (((td : ℚ) - 1) / td) * 100 := by
  have htd0 : (0 : ℚ) < td := by
    have : 1 ≤ td := le_trans h1 h2
    exact_mod_cast Nat.lt_of_lt_of_le Nat.zero_lt_one this
  have hcdle : (cd : ℚ) ≤ td := by exact_mod_cast h2
  refine ⟨rfl, rfl, rfl, ?_, ?_, ?_⟩
  · intro h
    subst h
    unfold sessionsPageProgress
    norm_num
  · unfold sessionsPageProgress
    have h3 : ((cd : ℚ) - 1) / td < 1 := (div_lt_one htd0).2 (by linarith)
    linarith
  · unfold sessionsPageProgress
    have h4 : ((cd : ℚ) - 1) / td ≤ ((td : ℚ) - 1) / td := by
      gcongr
    linarith

theorem c8_progress_below_100_witness :
    sessionsPageProgress ((3 : Nat) : ℚ) ((4 : Nat) : ℚ) < 100 :=
  (c8_progress_below_100 3 4 (by norm_num) (by norm_num)).2.2.2.2.1

/-- C10: for every finite value and every positive max, `ProgressBar`
computes `min(100, max(0, (value / max) * 100))`, so the rendered width
and label always lie within `[0, 100]`, also for negative values and
values exceeding max. -/
theorem c10_progress_bar_clamped (v m : ℚ) (_hm : 0 < m) :
    progressBarPercentage v m = min 100 (max 0 ((v / m) * 100)) ∧
    0 ≤ progressBarPercentage v m ∧ progressBarPercentage v m ≤ 100 := by
  refine ⟨rfl, ?_, ?_⟩
  · exact le_min (by norm_num) (le_max_left 0 _)
  · exact min_le_left 100 _

theorem c10_progress_bar_clamped_witness :
    0 ≤ progressBarPercentage (-5) 10 ∧ progressBarPercentage (-5) 10 ≤ 100 :=
  ⟨(c10_progress_bar_clamped (-5) 10 (by norm_num)).2.1,
   (c10_progress_bar_clamped (-5) 10 (by norm_num)).2.2⟩
